import Mathlib

/-!
Shallow embedding of the roundproxies scraper pipeline (etsy.py,
crunchbase.py, reddit.py): text normalization, field parsing, fetch and
pagination loops, record extraction over a document model, and export.
Strings are modelled as `List Char`.
-/

namespace Scrapers

/-- Characters matched by the host regex class `\s` on text strings and
stripped by `str.strip()` (Unicode whitespace). -/
def isPySpace (c : Char) : Bool :=
  c == ' ' || c == '\t' || c == '\n' || c == '\r' || c == '\x0b' || c == '\x0c' ||
  c == '\x1c' || c == '\x1d' || c == '\x1e' || c == '\x1f' || c == '\x85' ||
  c == ' ' || c == ' ' || c == ' ' || c == ' ' || c == ' ' ||
  c == ' ' || c == ' ' || c == ' ' || c == ' ' || c == ' ' ||
  c == ' ' || c == ' ' || c == ' ' || c == ' ' || c == ' ' ||
  c == ' ' || c == ' ' || c == '　'

/-- Embedding of `text.strip()`: drop whitespace from both ends. -/
def pyStrip (l : List Char) : List Char :=
  ((l.dropWhile isPySpace).reverse.dropWhile isPySpace).reverse

/-- Scanner for `re.sub(r'\s+', ' ', ·)`: the first whitespace character of
a run emits a single `' '`, the rest of the run emits nothing. The flag
records whether the scanner is inside a whitespace run. -/
def collapseGo (p : Char → Bool) : Bool → List Char → List Char
  | _, [] => []
  | inRun, c :: rest =>
    if p c then (if inRun then [] else [' ']) ++ collapseGo p true rest
    else c :: collapseGo p false rest

/-- Embedding of `re.sub(r'\s+', ' ', ·)`. -/
def collapseWs (l : List Char) : List Char := collapseGo isPySpace false l

/-- Embedding of `_clean_text` (identical in etsy.py and crunchbase.py):
empty-falsy guard, then strip, then collapse whitespace runs. -/
def cleanText (l : List Char) : List Char :=
  if l = [] then [] else collapseWs (pyStrip l)

theorem head_collapseGo_true (p : Char → Bool) (l : List Char) :
    ∀ c, (collapseGo p true l).head? = some c → p c = false := by
  induction l with
  | nil => simp [collapseGo]
  | cons a t ih =>
    intro c hc
    by_cases h : p a
    · rw [collapseGo, if_pos h, if_pos rfl, List.nil_append] at hc
      exact ih c hc
    · rw [collapseGo, if_neg h] at hc
      simp only [List.head?_cons, Option.some.injEq] at hc
      subst hc
      exact Bool.eq_false_iff.mpr h

/-- No two consecutive whitespace characters in the collapsed output. -/
theorem chain'_collapseGo (p : Char → Bool) (l : List Char) :
    ∀ b, List.Chain' (fun x y => p x = false ∨ p y = false) (collapseGo p b l) := by
  induction l with
  | nil => intro b; simp [collapseGo]
  | cons a t ih =>
    intro b
    by_cases h : p a
    · rw [collapseGo, if_pos h]
      cases b with
      | true => simpa using ih true
      | false =>
        rw [if_neg (by simp), List.singleton_append, List.chain'_cons']
        exact ⟨fun c hc => Or.inr (head_collapseGo_true p t c hc), ih true⟩
    · rw [collapseGo, if_neg h, List.chain'_cons']
      exact ⟨fun c _ => Or.inl (Bool.eq_false_iff.mpr h), ih false⟩

/-- Every whitespace character of the collapsed output is the plain space. -/
theorem mem_collapseGo_space (p : Char → Bool) (l : List Char) :
    ∀ b, ∀ c ∈ collapseGo p b l, p c = true → c = ' ' := by
  induction l with
  | nil => intro b; simp [collapseGo]
  | cons a t ih =>
    intro b c hc hcs
    by_cases h : p a
    · rw [collapseGo, if_pos h] at hc
      rcases List.mem_append.mp hc with hm | hm
      · cases b with
        | true => simp at hm
        | false => simpa using List.mem_singleton.mp (by simpa using hm)
      · exact ih true c hm hcs
    · rw [collapseGo, if_neg h] at hc
      rcases List.mem_cons.mp hc with hm | hm
      · subst hm; exact absurd hcs (by simpa using h)
      · exact ih false c hm hcs

theorem collapseGo_ne_nil (p : Char → Bool) {l : List Char} {x : Char}
    (hx : x ∈ l) (hxs : p x = false) : ∀ b, collapseGo p b l ≠ [] := by
  induction l with
  | nil => exact absurd hx (List.not_mem_nil x)
  | cons a t ih =>
    intro b
    by_cases h : p a
    · rw [collapseGo, if_pos h]
      have hxt : x ∈ t := by
        rcases List.mem_cons.mp hx with hm | hm
        · subst hm; exact absurd h (by simpa using hxs)
        · exact hm
      intro hcontra
      exact ih hxt true (List.append_eq_nil.mp hcontra).2
    · rw [collapseGo, if_neg h]
      simp

/-- A non-whitespace final character survives collapsing as the final
character position (it stays non-whitespace). -/
theorem getLast_collapseGo (p : Char → Bool) (l : List Char)
    (hl : ∀ c, l.getLast? = some c → p c = false) :
    ∀ b c, (collapseGo p b l).getLast? = some c → p c = false := by
  induction l with
  | nil => intro b c hc; rw [collapseGo] at hc; simp at hc
  | cons a t ih =>
    intro b c hc
    rcases eq_or_ne t [] with ht | ht
    · subst ht
      have ha : p a = false := hl a (by simp)
      rw [collapseGo, if_neg (by simp [ha])] at hc
      simp only [collapseGo, List.getLast?_singleton, Option.some.injEq] at hc
      subst hc; exact ha
    · have hlt : ∀ d, t.getLast? = some d → p d = false := by
        intro d hd
        apply hl
        rw [show a :: t = [a] ++ t by simp,
          List.getLast?_append_of_ne_nil [a] ht]
        exact hd
      have hd : t.getLast? = some (t.getLast ht) := List.getLast?_eq_getLast t ht
      have htail : collapseGo p true t ≠ [] :=
        collapseGo_ne_nil p (List.mem_of_getLast?_eq_some hd) (hlt _ hd) true
      have htail' : collapseGo p false t ≠ [] :=
        collapseGo_ne_nil p (List.mem_of_getLast?_eq_some hd) (hlt _ hd) false
      by_cases h : p a
      · rw [collapseGo, if_pos h] at hc
        rw [List.getLast?_append_of_ne_nil _ htail] at hc
        exact ih hlt true c hc
      · rw [collapseGo, if_neg h] at hc
        rw [show a :: collapseGo p false t = [a] ++ collapseGo p false t by simp,
          List.getLast?_append_of_ne_nil [a] htail'] at hc
        exact ih hlt false c hc

theorem head_collapseGo_false (p : Char → Bool) (l : List Char)
    (hl : ∀ c, l.head? = some c → p c = false) :
    ∀ c, (collapseGo p false l).head? = some c → p c = false := by
  cases l with
  | nil => intro c hc; rw [collapseGo] at hc; simp at hc
  | cons a t =>
    intro c hc
    have ha : p a = false := hl a (by simp)
    rw [collapseGo, if_neg (by simp [ha])] at hc
    simp only [List.head?_cons, Option.some.injEq] at hc
    subst hc
    exact ha

/-- Collapsing is the identity on text whose whitespace characters are all
plain spaces and never adjacent. -/
theorem collapseGo_eq_self (p : Char → Bool) (l : List Char)
    (hsp : ∀ c ∈ l, p c = true → c = ' ')
    (hch : List.Chain' (fun x y => p x = false ∨ p y = false) l) :
    collapseGo p false l = l ∧
    ((∀ c, l.head? = some c → p c = false) → collapseGo p true l = l) := by
  induction l with
  | nil => exact ⟨rfl, fun _ => rfl⟩
  | cons a t ih =>
    have hsp' : ∀ c ∈ t, p c = true → c = ' ' :=
      fun c hc => hsp c (List.mem_cons_of_mem a hc)
    have hch' : List.Chain' (fun x y => p x = false ∨ p y = false) t :=
      (List.chain'_cons'.mp hch).2
    have ih' := ih hsp' hch'
    constructor
    · by_cases h : p a
      · have ha : a = ' ' := hsp a (List.mem_cons_self a t) h
        have hthead : ∀ c, t.head? = some c → p c = false := by
          intro c hc
          rcases (List.chain'_cons'.mp hch).1 c hc with hx | hx
          · exact absurd h (by simp [hx])
          · exact hx
        rw [collapseGo, if_pos h, if_neg (by simp), List.singleton_append,
          ih'.2 hthead, ha]
      · rw [collapseGo, if_neg h, ih'.1]
    · intro hhead
      have ha : p a = false := hhead a (by simp)
      rw [collapseGo, if_neg (by simp [ha]), ih'.1]

theorem head_dropWhile (p : Char → Bool) (l : List Char) :
    ∀ c, (l.dropWhile p).head? = some c → p c = false := by
  induction l with
  | nil => simp
  | cons a t ih =>
    intro c hc
    by_cases h : p a
    · rw [List.dropWhile_cons, if_pos h] at hc
      exact ih c hc
    · rw [List.dropWhile_cons, if_neg h] at hc
      simp only [List.head?_cons, Option.some.injEq] at hc
      subst hc
      exact Bool.eq_false_iff.mpr h

theorem dropWhile_eq_self (p : Char → Bool) (l : List Char)
    (hl : ∀ c, l.head? = some c → p c = false) : l.dropWhile p = l := by
  cases l with
  | nil => rfl
  | cons a t =>
    rw [List.dropWhile_cons, if_neg (by simp [hl a (by simp)])]

theorem head_pyStrip (l : List Char) :
    ∀ c, (pyStrip l).head? = some c → isPySpace c = false := by
  intro c hc
  rw [pyStrip, List.head?_reverse] at hc
  rcases eq_or_ne ((l.dropWhile isPySpace).reverse.dropWhile isPySpace) [] with hm | hm
  · rw [hm] at hc; simp at hc
  · obtain ⟨t, ht⟩ := List.dropWhile_suffix (l := (l.dropWhile isPySpace).reverse)
      (p := isPySpace)
    have hkey : ((l.dropWhile isPySpace).reverse.dropWhile isPySpace).getLast? =
        (l.dropWhile isPySpace).head? := by
      calc ((l.dropWhile isPySpace).reverse.dropWhile isPySpace).getLast?
          = (t ++ (l.dropWhile isPySpace).reverse.dropWhile isPySpace).getLast? :=
            (List.getLast?_append_of_ne_nil t hm).symm
        _ = ((l.dropWhile isPySpace).reverse).getLast? := by rw [ht]
        _ = (l.dropWhile isPySpace).head? := List.getLast?_reverse _
    rw [hkey] at hc
    exact head_dropWhile isPySpace l c hc

theorem getLast_pyStrip (l : List Char) :
    ∀ c, (pyStrip l).getLast? = some c → isPySpace c = false := by
  intro c hc
  rw [pyStrip, List.getLast?_reverse] at hc
  exact head_dropWhile isPySpace _ c hc

theorem pyStrip_eq_self (l : List Char)
    (hh : ∀ c, l.head? = some c → isPySpace c = false)
    (hl : ∀ c, l.getLast? = some c → isPySpace c = false) : pyStrip l = l := by
  rw [pyStrip, dropWhile_eq_self isPySpace l hh]
  rw [dropWhile_eq_self isPySpace l.reverse (by
    intro c hc
    rw [List.head?_reverse] at hc
    exact hl c hc)]
  exact List.reverse_reverse l

/-- C8: for every input, `_clean_text` output has no two consecutive
whitespace characters and no leading or trailing whitespace; it is
idempotent; and the empty (falsy) input maps to the empty string. -/
theorem cleanText_spec (l : List Char) :
    List.Chain' (fun x y => isPySpace x = false ∨ isPySpace y = false) (cleanText l) ∧
    (∀ c, (cleanText l).head? = some c → isPySpace c = false) ∧
    (∀ c, (cleanText l).getLast? = some c → isPySpace c = false) ∧
    cleanText (cleanText l) = cleanText l ∧
    cleanText [] = [] := by
  rcases eq_or_ne l [] with hl | hl
  · subst hl
    refine ⟨?_, ?_, ?_, rfl, rfl⟩ <;> simp [cleanText]
  · have hdef : cleanText l = collapseGo isPySpace false (pyStrip l) := by
      rw [cleanText, if_neg hl]; rfl
    have hchain : List.Chain' (fun x y => isPySpace x = false ∨ isPySpace y = false)
        (cleanText l) := by
      rw [hdef]; exact chain'_collapseGo isPySpace (pyStrip l) false
    have hhead : ∀ c, (cleanText l).head? = some c → isPySpace c = false := by
      rw [hdef]
      exact head_collapseGo_false isPySpace (pyStrip l) (head_pyStrip l)
    have hlast : ∀ c, (cleanText l).getLast? = some c → isPySpace c = false := by
      rw [hdef]
      exact getLast_collapseGo isPySpace (pyStrip l) (getLast_pyStrip l) false
    have hsp : ∀ c ∈ cleanText l, isPySpace c = true → c = ' ' := by
      rw [hdef]
      exact mem_collapseGo_space isPySpace (pyStrip l) false
    refine ⟨hchain, hhead, hlast, ?_, rfl⟩
    rcases eq_or_ne (cleanText l) [] with hnil | hnil
    · rw [hnil]; rfl
    · rw [cleanText, if_neg hnil]
      show collapseGo isPySpace false (pyStrip (cleanText l)) = cleanText l
      rw [pyStrip_eq_self (cleanText l) hhead hlast]
      exact (collapseGo_eq_self isPySpace (cleanText l) hsp hchain).1

/-- Witness for C8 at a concrete input with leading, trailing and interior
whitespace runs. -/
theorem cleanText_spec_witness :
    (cleanText "  a \t b ".toList).head? = some 'a' ∧
    (cleanText "  a \t b ".toList).getLast? = some 'b' ∧
    isPySpace 'a' = false ∧ isPySpace 'b' = false ∧
    cleanText (cleanText "  a \t b ".toList) = cleanText "  a \t b ".toList := by
  refine ⟨by decide, by decide, ?_, ?_, ?_⟩
  · exact (cleanText_spec "  a \t b ".toList).2.1 'a' (by decide)
  · exact (cleanText_spec "  a \t b ".toList).2.2.1 'b' (by decide)
  · exact (cleanText_spec "  a \t b ".toList).2.2.2.1

/-- Currency symbols of the class `[£$€¥₹]` shared by both money patterns. -/
def isCurrencySym (c : Char) : Bool :=
  c == '£' || c == '$' || c == '€' || c == '¥' || c == '₹'

/-- ASCII decimal digits. The source patterns (`\d`) also accept other
Unicode decimal digits, which no claim exercises. -/
def isPyDigit (c : Char) : Bool := c.isDigit

/-- Characters of the amount class `[0-9,.]` of the crunchbase pattern. -/
def isAmountChar (c : Char) : Bool := isPyDigit c || c == ',' || c == '.'

/-- Characters matched by `[KMB]` under `re.I` (including the Kelvin sign,
which Unicode case folding makes a case variant of `K`). -/
def isMagChar (c : Char) : Bool :=
  c == 'K' || c == 'M' || c == 'B' || c == 'k' || c == 'm' || c == 'b' || c == 'K'

/-- Leftmost match of `([£$€¥₹])\s*([0-9,.]+)\s*([KMB]?)` (crunchbase
`_parse_funding_amount`): scan for a currency symbol followed, after
optional whitespace, by at least one amount character; the optional
magnitude letter follows further optional whitespace. -/
def findMoney : List Char → Option (Char × List Char × List Char)
  | [] => none
  | c :: rest =>
    if isCurrencySym c then
      let afterSp := rest.dropWhile isPySpace
      let amt := afterSp.takeWhile isAmountChar
      if amt = [] then findMoney rest
      else
        let afterAmt := afterSp.dropWhile isAmountChar
        let afterSp2 := afterAmt.dropWhile isPySpace
        let mag := match afterSp2 with
          | d :: _ => if isMagChar d then [d] else []
          | [] => []
        some (c, amt, mag)
    else findMoney rest

/-- Embedding of `CrunchbaseScraper._parse_funding_amount`. The result is
an association list mirroring the returned dict: note that the empty-input
early return carries no `multiplier` key. -/
def parseFundingAmount (text : List Char) : List (String × List Char) :=
  if text = [] then [("amount", []), ("currency", []), ("raw", [])]
  else
    let cleaned := cleanText text
    match findMoney cleaned with
    | some (cur, amt, mag) =>
      [("currency", [cur]), ("amount", amt),
       ("multiplier", mag.map Char.toUpper), ("raw", cleaned)]
    | none => [("amount", []), ("currency", []), ("multiplier", []), ("raw", cleaned)]

/-- Characters of the first amount group `[0-9,]` of the etsy pattern. -/
def isEtsyAmountChar (c : Char) : Bool := isPyDigit c || c == ','

/-- Leftmost match of `([£$€¥₹])\s*([0-9,]+\.?\d*)` (etsy
`_extract_price`): the price group is the comma-digit run, optionally
extended by a dot and a further digit run. -/
def findPrice : List Char → Option (Char × List Char)
  | [] => none
  | c :: rest =>
    if isCurrencySym c then
      let afterSp := rest.dropWhile isPySpace
      let d1 := afterSp.takeWhile isEtsyAmountChar
      if d1 = [] then findPrice rest
      else
        match afterSp.dropWhile isEtsyAmountChar with
        | '.' :: r2 => some (c, d1 ++ '.' :: r2.takeWhile isPyDigit)
        | _ => some (c, d1)
    else findPrice rest

/-- Embedding of `EtsyScraper._extract_price`. -/
def extractPrice (text : List Char) : List (String × List Char) :=
  if text = [] then [("price", []), ("currency", []), ("raw", [])]
  else
    let cleaned := cleanText text
    match findPrice cleaned with
    | some (cur, amt) =>
      [("currency", [cur]), ("price", amt), ("raw", cleaned)]
    | none => [("price", []), ("currency", []), ("raw", cleaned)]

/-- C7: on input `"$1,200K"` the funding parser returns currency `$`,
amount `1,200`, magnitude `K` and the raw text unchanged; the magnitude
suffix is recognized case-insensitively (`"$1,200k"` gives the same
uppercased magnitude). -/
theorem parseFundingAmount_example :
    parseFundingAmount "$1,200K".toList =
      [("currency", ['$']), ("amount", "1,200".toList),
       ("multiplier", ['K']), ("raw", "$1,200K".toList)] ∧
    (parseFundingAmount "$1,200k".toList).lookup "multiplier" = some ['K'] ∧
    (parseFundingAmount "$1,200k".toList).lookup "amount" = some "1,200".toList := by
  refine ⟨?_, ?_, ?_⟩ <;> decide

/-- C6 counterexample: on a non-matching input containing a doubled space
the parser's `raw` field is the whitespace-normalized text, not the
original input text. -/
theorem parseFundingAmount_raw_cleaned :
    findMoney (cleanText "no  price".toList) = none ∧
    (parseFundingAmount "no  price".toList).lookup "raw" ≠ some "no  price".toList ∧
    (parseFundingAmount "no  price".toList).lookup "raw" = some "no price".toList := by
  refine ⟨?_, ?_, ?_⟩ <;> decide

/-- C6 as amended: when the money pattern finds no match in the cleaned
text, currency and amount are empty and `raw` is the cleaned input; the
magnitude field is empty for nonempty input, and its key is absent
entirely on the empty-input early return. -/
theorem parseFundingAmount_noMatch (text : List Char)
    (h : findMoney (cleanText text) = none) :
    (parseFundingAmount text).lookup "currency" = some [] ∧
    (parseFundingAmount text).lookup "amount" = some [] ∧
    (text ≠ [] → (parseFundingAmount text).lookup "multiplier" = some []) ∧
    (text = [] → (parseFundingAmount text).lookup "multiplier" = none) ∧
    (parseFundingAmount text).lookup "raw" = some (cleanText text) := by
  rcases eq_or_ne text [] with ht | ht
  · subst ht
    refine ⟨by decide, by decide, ?_, fun _ => by decide, by decide⟩
    intro hcontra
    exact absurd rfl hcontra
  · have hd : parseFundingAmount text =
        [("amount", []), ("currency", []), ("multiplier", []),
         ("raw", cleanText text)] := by
      simp only [parseFundingAmount, if_neg ht, h]
    rw [hd]
    exact ⟨rfl, rfl, fun _ => rfl, fun hc => absurd hc ht, rfl⟩

/-- Witness for C6 as amended at the spec's own example input. -/
theorem parseFundingAmount_noMatch_witness :
    findMoney (cleanText "no price here".toList) = none ∧
    (parseFundingAmount "no price here".toList).lookup "currency" = some [] ∧
    (parseFundingAmount "no price here".toList).lookup "amount" = some [] ∧
    (parseFundingAmount "no price here".toList).lookup "multiplier" = some [] ∧
    (parseFundingAmount "no price here".toList).lookup "raw" =
      some (cleanText "no price here".toList) := by
  have h : findMoney (cleanText "no price here".toList) = none := by decide
  have hm := parseFundingAmount_noMatch "no price here".toList h
  exact ⟨h, hm.1, hm.2.1, hm.2.2.1 (by decide), hm.2.2.2.2⟩

/-- Literal-pattern test: the first list is an initial segment of the
second. -/
def litMatch : List Char → List Char → Bool
  | [], _ => true
  | _ :: _, [] => false
  | p :: ps, c :: cs => p == c && litMatch ps cs

/-- Marker alternation `(?:out of 5|stars?)` of the rating pattern, matched
exactly as written (the source passes no ignore-case flag). -/
def ratingMarkerAt (l : List Char) : Bool :=
  litMatch "out of 5".toList l || litMatch "star".toList l

/-- Match of `(\d+\.?\d*)\s*(?:out of 5|stars?)` anchored at the start of
`l`, returning the captured decimal group. -/
def matchRatingAt (l : List Char) : Option (List Char) :=
  let d1 := l.takeWhile isPyDigit
  if d1 = [] then none
  else
    let r1 := l.dropWhile isPyDigit
    let dotted := decide (r1.head? = some '.')
    let grp := if dotted then d1 ++ '.' :: r1.tail.takeWhile isPyDigit else d1
    let r2 := if dotted then r1.tail.dropWhile isPyDigit else r1
    if ratingMarkerAt (r2.dropWhile isPySpace) then some grp else none

/-- Leftmost search of the rating pattern, as in
`re.search(r'(\d+\.?\d*)\s*(?:out of 5|stars?)', rating_text)` inside
`EtsyScraper._extract_product_from_listing`. -/
def searchRating : List Char → Option (List Char)
  | [] => none
  | c :: rest =>
    match matchRatingAt (c :: rest) with
    | some g => some g
    | none => searchRating rest

/-- C9 counterexample: the marker is matched case-sensitively, so inputs
differing only in the letter case of the marker phrase yield different
extracted ratings. -/
theorem searchRating_case_sensitive :
    searchRating "4.5 stars".toList = some "4.5".toList ∧
    searchRating "4.5 STARS".toList = none ∧
    searchRating "4.5 Out Of 5".toList = none := by
  refine ⟨?_, ?_, ?_⟩ <;> decide

/-- C9 as amended: the rating extraction returns the decimal number
preceding a lowercase marker phrase (`out of 5` or `star(s)`); the match
is case-sensitive. -/
theorem searchRating_lower (ds : List Char) (h1 : ds ≠ [])
    (h2 : ∀ c ∈ ds, isPyDigit c = true) :
    searchRating (ds ++ " stars".toList) = some ds ∧
    searchRating (ds ++ " out of 5".toList) = some ds := by
  have key : ∀ tail : List Char,
      tail.takeWhile isPyDigit = [] →
      tail.dropWhile isPyDigit = tail →
      (decide (tail.head? = some '.')) = false →
      ratingMarkerAt (tail.dropWhile isPySpace) = true →
      matchRatingAt (ds ++ tail) = some ds := by
    intro tail e1 e2 e3 e4
    simp only [matchRatingAt, List.takeWhile_append_of_pos h2, e1,
      List.append_nil, List.dropWhile_append_of_pos h2, e2, e3, e4]
    rw [if_neg h1]
    simp [e4]
  obtain ⟨d, ds', rfl⟩ : ∃ d ds', ds = d :: ds' := by
    cases ds with
    | nil => exact absurd rfl h1
    | cons d ds' => exact ⟨d, ds', rfl⟩
  constructor
  · rw [List.cons_append, searchRating, ← List.cons_append,
      key " stars".toList (by decide) (by decide) (by decide) (by decide)]
  · rw [List.cons_append, searchRating, ← List.cons_append,
      key " out of 5".toList (by decide) (by decide) (by decide) (by decide)]

/-- Witness for C9 as amended at the concrete rating text `4 stars`. -/
theorem searchRating_lower_witness :
    "4".toList ≠ [] ∧ (∀ c ∈ "4".toList, isPyDigit c = true) ∧
    searchRating ("4".toList ++ " stars".toList) = some "4".toList ∧
    searchRating ("4".toList ++ " out of 5".toList) = some "4".toList := by
  refine ⟨by decide, by decide, ?_⟩
  exact searchRating_lower "4".toList (by decide) (by decide)

/-- Outcome of the single `session.get` call made inside `_make_request`:
a raised connection error, a raised timeout, or a response with an HTTP
status code and body. -/
inductive TransportOutcome where
  | connectionError : TransportOutcome
  | timeoutError : TransportOutcome
  | gotResponse : Nat → List Char → TransportOutcome
deriving DecidableEq

/-- Response value returned past the fetcher boundary. -/
structure HttpResponse where
  status : Nat
  body : List Char
deriving DecidableEq

/-- Embedding of `_make_request` (identical structure in etsy.py,
crunchbase.py and reddit.py): it issues exactly one GET — modelled by the
single consumed outcome — then `raise_for_status()` raises for client and
server error statuses (4xx/5xx), and the `except RequestException`
clause converts any raised error into `None`. -/
def makeRequest (o : TransportOutcome) : Option HttpResponse :=
  match o with
  | .connectionError => none
  | .timeoutError => none
  | .gotResponse s b => if 400 ≤ s ∧ s < 600 then none else some ⟨s, b⟩

/-- Inner `for element in product_elements` loop of
`EtsyScraper.search_products`: stop adding once `limit` records are
collected; a fragment whose extraction returns none (or raises — the
`except` clause continues) contributes nothing. -/
def extractLoop {α β : Type} (extract : α → Option β) (limit : Nat) :
    List β → List α → List β
  | acc, [] => acc
  | acc, f :: fs =>
    if limit ≤ acc.length then acc
    else
      match extract f with
      | some r => extractLoop extract limit (acc ++ [r]) fs
      | none => extractLoop extract limit acc fs

/-- Embedding of the `while len(products) < limit` pagination loop of
`EtsyScraper.search_products`: fetch the page (none models a failed
`_make_request`, an empty fragment list models a page with no listing
cards — both `break`), extract, then `page += 1` and `break` once
`page > 10` (the safety limit). Returns the accumulated records together
with the number of fetch attempts made. -/
def searchGo {α β : Type} (fetch : Nat → Option (List α))
    (extract : α → Option β) (limit : Nat) :
    Nat → List β → Nat → List β × Nat
  | page, products, attempts =>
    if limit ≤ products.length then (products, attempts)
    else
      match fetch page with
      | none => (products, attempts + 1)
      | some frags =>
        if frags.isEmpty then (products, attempts + 1)
        else
          let products' := extractLoop extract limit products frags
          if 10 < page + 1 then (products', attempts + 1)
          else searchGo fetch extract limit (page + 1) products' (attempts + 1)
termination_by page => 11 - page
decreasing_by
  simp_wf
  omega

/-- Embedding of `EtsyScraper.search_products`: run the pagination loop
from page 1 and return `products[:limit]` with the fetch-attempt count. -/
def searchProducts {α β : Type} (fetch : Nat → Option (List α))
    (extract : α → Option β) (limit : Nat) : List β × Nat :=
  ((searchGo fetch extract limit 1 [] 0).1.take limit,
   (searchGo fetch extract limit 1 [] 0).2)

theorem extractLoop_length {α β : Type} (f : α → β) (limit : Nat)
    (l : List α) : ∀ acc : List β, acc.length ≤ limit →
    (extractLoop (fun x => some (f x)) limit acc l).length =
      min limit (acc.length + l.length) := by
  induction l with
  | nil =>
    intro acc h
    simp only [extractLoop, List.length_nil, Nat.add_zero]
    omega
  | cons a fs ih =>
    intro acc h
    simp only [extractLoop]
    by_cases hl : limit ≤ acc.length
    · rw [if_pos hl]
      simp only [List.length_cons]
      omega
    · rw [if_neg hl]
      show (extractLoop (fun x => some (f x)) limit (acc ++ [f a]) fs).length = _
      rw [ih (acc ++ [f a]) (by simp only [List.length_append, List.length_singleton,
        List.length_cons, List.length_nil]; omega)]
      congr 1
      simp only [List.length_append, List.length_singleton, List.length_cons,
        List.length_nil]
      omega

theorem searchGo_attempts_le {α β : Type} (fetch : Nat → Option (List α))
    (extract : α → Option β) (limit : Nat) :
    ∀ (n page : Nat) (products : List β) (attempts : Nat), 11 - page ≤ n →
    page ≤ 10 →
    (searchGo fetch extract limit page products attempts).2 ≤
      attempts + (11 - page) := by
  intro n
  induction n with
  | zero => intro page _ _ hn hp; omega
  | succ n ih =>
    intro page products attempts hn hp
    rw [searchGo]
    by_cases h1 : limit ≤ products.length
    · rw [if_pos h1]
      omega
    · rw [if_neg h1]
      cases hf : fetch page with
      | none => simp only; omega
      | some frags =>
        dsimp only
        by_cases he : frags.isEmpty = true
        · rw [if_pos he]
          omega
        · rw [if_neg he]
          by_cases hc : 10 < page + 1
          · rw [if_pos hc]
            omega
          · rw [if_neg hc]
            have := ih (page + 1)
              (extractLoop extract limit products frags) (attempts + 1)
              (by omega) (by omega)
            omega

/-- C2: the pagination loop never makes more than 10 fetch attempts, for
every fetch and extraction behavior; and with a fetch that always fails
(and a positive target) it terminates with no records after exactly one
attempt. -/
theorem searchProducts_halts {α β : Type} (fetch : Nat → Option (List α))
    (extract : α → Option β) (limit : Nat) :
    (searchProducts fetch extract limit).2 ≤ 10 ∧
    (0 < limit →
      searchProducts (fun _ : Nat => (none : Option (List α))) extract limit =
        ([], 1)) := by
  constructor
  · have h := searchGo_attempts_le fetch extract limit 10 1 [] 0 (by omega)
      (by omega)
    simpa [searchProducts] using h
  · intro hlim
    have h : searchGo (fun _ : Nat => (none : Option (List α))) extract limit
        1 [] 0 = ([], 1) := by
      rw [searchGo]
      rw [if_neg (by simpa using Nat.not_le.mpr hlim)]
    simp [searchProducts, h]

/-- Witness for C2 with target 20 and an always-failing fetch. -/
theorem searchProducts_halts_witness :
    (0:Nat) < 20 ∧
    searchProducts (fun _ : Nat => (none : Option (List Unit)))
      (fun x : Unit => some x) 20 = ([], 1) :=
  ⟨by decide,
   (searchProducts_halts (fun _ : Nat => (none : Option (List Unit)))
      (fun x : Unit => some x) 20).2 (by decide)⟩

theorem searchGo_step20 {α β : Type} (a : α) (f : α → β) :
    ∀ (page : Nat) (acc : List β) (att : Nat), acc.length < 25 →
    page + 1 ≤ 10 →
    searchGo (fun _ => some (List.replicate 20 a)) (fun x => some (f x)) 25
        page acc att =
      searchGo (fun _ => some (List.replicate 20 a)) (fun x => some (f x)) 25
        (page + 1) (extractLoop (fun x => some (f x)) 25 acc
          (List.replicate 20 a)) (att + 1) := by
  intro page acc att hacc hpage
  rw [searchGo]
  rw [if_neg (by omega)]
  dsimp only
  rw [if_neg (by simp), if_neg (by omega)]

/-- C3: with target 25, page ceiling 10, and a source yielding 20
extractable entities per page, the loop stops after exactly 2 fetched
pages with exactly 25 records; in general the returned list is the
accumulated record list truncated to the target. -/
theorem searchProducts_twoPages {α β : Type} (a : α) (f : α → β) :
    (searchProducts (fun _ => some (List.replicate 20 a))
      (fun x => some (f x)) 25).1.length = 25 ∧
    (searchProducts (fun _ => some (List.replicate 20 a))
      (fun x => some (f x)) 25).2 = 2 ∧
    (∀ (fetch : Nat → Option (List α)) (extract : α → Option β)
      (limit : Nat), (searchProducts fetch extract limit).1.length ≤ limit) := by
  have hP1 : (extractLoop (fun x => some (f x)) 25 ([] : List β)
      (List.replicate 20 a)).length = 20 := by
    rw [extractLoop_length f 25 (List.replicate 20 a) [] (by simp)]
    simp
  have hP2 : (extractLoop (fun x => some (f x)) 25
      (extractLoop (fun x => some (f x)) 25 ([] : List β)
        (List.replicate 20 a)) (List.replicate 20 a)).length = 25 := by
    rw [extractLoop_length f 25 (List.replicate 20 a) _ (by omega)]
    rw [hP1]
    simp
  have h1 := searchGo_step20 a f 1 [] 0 (by simp) (by omega)
  have h2 := searchGo_step20 a f 2
    (extractLoop (fun x => some (f x)) 25 [] (List.replicate 20 a)) 1
    (by omega) (by omega)
  have h3 : searchGo (fun _ => some (List.replicate 20 a))
      (fun x => some (f x)) 25 3
      (extractLoop (fun x => some (f x)) 25
        (extractLoop (fun x => some (f x)) 25 [] (List.replicate 20 a))
        (List.replicate 20 a)) 2 =
      (extractLoop (fun x => some (f x)) 25
        (extractLoop (fun x => some (f x)) 25 [] (List.replicate 20 a))
        (List.replicate 20 a), 2) := by
    rw [searchGo, if_pos (by omega)]
  refine ⟨?_, ?_, ?_⟩
  · show ((searchGo _ _ 25 1 [] 0).1.take 25).length = 25
    rw [h1, h2, h3]
    rw [List.length_take, hP2]
    exact Nat.min_self 25
  · show (searchGo _ _ 25 1 [] 0).2 = 2
    rw [h1, h2, h3]
  · intro fetch extract limit
    show ((searchGo fetch extract limit 1 [] 0).1.take limit).length ≤ limit
    rw [List.length_take]
    exact Nat.min_le_left _ _

/-- C5 counterexample: `raise_for_status` raises only for 4xx/5xx, so a
non-2xx status such as 304 is returned as a success, not converted to the
failure marker. -/
theorem makeRequest_304 :
    makeRequest (.gotResponse 304 "x".toList) =
      some ⟨304, "x".toList⟩ ∧ ¬ (200 ≤ 304 ∧ 304 < 300) := by
  exact ⟨by decide, by decide⟩

/-- C5 as amended: the fetcher makes a single bounded attempt per call
(one consumed transport outcome) and returns the failure marker, with no
partial data, on a connection error, a timeout, or a 4xx/5xx status; the
pagination loop treats a failed fetch exactly like a page with zero
entity fragments. -/
theorem makeRequest_spec (α β : Type) :
    makeRequest .connectionError = none ∧
    makeRequest .timeoutError = none ∧
    (∀ (s : Nat) (b : List Char), 400 ≤ s → s < 600 →
      makeRequest (.gotResponse s b) = none) ∧
    (∀ (extract : α → Option β) (limit page : Nat) (acc : List β)
      (att : Nat),
      searchGo (fun _ : Nat => (none : Option (List α))) extract limit
          page acc att =
        searchGo (fun _ : Nat => some ([] : List α)) extract limit
          page acc att) := by
  refine ⟨rfl, rfl, ?_, ?_⟩
  · intro s b h4 h6
    rw [makeRequest, if_pos ⟨h4, h6⟩]
  · intro extract limit page acc att
    rw [searchGo, searchGo]
    by_cases h1 : limit ≤ acc.length
    · rw [if_pos h1, if_pos h1]
    · rw [if_neg h1, if_neg h1]
      rfl

/-- Witness for C5 as amended at a 404 response and concrete loop state. -/
theorem makeRequest_spec_witness :
    ((400:Nat) ≤ 404 ∧ (404:Nat) < 600) ∧
    makeRequest (.gotResponse 404 []) = none ∧
    searchGo (fun _ : Nat => (none : Option (List Unit)))
        (fun x : Unit => some x) 5 1 [] 0 =
      searchGo (fun _ : Nat => some ([] : List Unit))
        (fun x : Unit => some x) 5 1 [] 0 :=
  ⟨by decide,
   (makeRequest_spec Unit Unit).2.2.1 404 [] (by decide) (by decide),
   (makeRequest_spec Unit Unit).2.2.2 (fun x => some x) 5 1 [] 0⟩

/-- Substring test: the pattern occurs somewhere in the text, as with
`re.search` on a literal pattern. -/
def containsSub (pat : List Char) : List Char → Bool
  | [] => litMatch pat []
  | c :: rest => litMatch pat (c :: rest) || containsSub pat rest

/-- ASCII lowering for the one case-insensitive text search
(`re.compile(r'free shipping', re.I)`). -/
def lowerAscii (l : List Char) : List Char := l.map Char.toLower

mutual
/-- Document node: an element with a tag, attributes (each attribute a
list of value strings — `class` is multi-valued, the rest singletons) and
children, or a text node. A mutual forest type keeps all traversals
structurally recursive. -/
inductive Node where
  | elem : String → List (String × List (List Char)) → NodeForest → Node
  | text : List Char → Node
inductive NodeForest where
  | nil : NodeForest
  | cons : Node → NodeForest → NodeForest
end

/-- Attribute regex-containment as BeautifulSoup applies it: the pattern
must occur in some value item of the attribute. -/
def attrContains (attrs : List (String × List (List Char))) (key : String)
    (pat : List Char) : Bool :=
  match attrs.lookup key with
  | some items => items.any (fun it => containsSub pat it)
  | none => false

/-- Class-pattern containment (`class_=re.compile(...)`): the pattern must
occur in one of the element's class names. -/
def classContains (attrs : List (String × List (List Char)))
    (pat : List Char) : Bool :=
  attrContains attrs "class" pat

/-- Attribute presence, for `find('a', title=True)`. -/
def hasAttr (attrs : List (String × List (List Char))) (key : String) : Bool :=
  (attrs.lookup key).isSome

mutual
/-- First element of the subtree rooted at a node (the node itself
included) satisfying the tag/attribute test, in document preorder — the
traversal of BeautifulSoup `find`. -/
def nodeFind (p : String → List (String × List (List Char)) → Bool) :
    Node → Option Node
  | .text _ => none
  | .elem t a c =>
    if p t a then some (.elem t a c) else forestFind p c
def forestFind (p : String → List (String × List (List Char)) → Bool) :
    NodeForest → Option Node
  | .nil => none
  | .cons n rest =>
    match nodeFind p n with
    | some m => some m
    | none => forestFind p rest
end

mutual
/-- All matching elements of a subtree in preorder (`find_all`). -/
def nodeFindAll (p : String → List (String × List (List Char)) → Bool) :
    Node → List Node
  | .text _ => []
  | .elem t a c =>
    (if p t a then [Node.elem t a c] else []) ++ forestFindAll p c
def forestFindAll (p : String → List (String × List (List Char)) → Bool) :
    NodeForest → List Node
  | .nil => []
  | .cons n rest => nodeFindAll p n ++ forestFindAll p rest
end

mutual
/-- First descendant text node satisfying the content test
(`find(text=re.compile(...))`). -/
def nodeFindString (q : List Char → Bool) : Node → Option (List Char)
  | .text s => if q s then some s else none
  | .elem _ _ c => forestFindString q c
def forestFindString (q : List Char → Bool) : NodeForest → Option (List Char)
  | .nil => none
  | .cons n rest =>
    match nodeFindString q n with
    | some s => some s
    | none => forestFindString q rest
end

mutual
/-- Concatenated text of a subtree (`get_text()`). -/
def nodeText : Node → List Char
  | .text s => s
  | .elem _ _ c => forestText c
def forestText : NodeForest → List Char
  | .nil => []
  | .cons n rest => nodeText n ++ forestText rest
end

/-- BeautifulSoup `element.find(...)` searches the descendants of the
element, not the element itself. -/
def findIn (element : Node)
    (p : String → List (String × List (List Char)) → Bool) : Option Node :=
  match element with
  | .text _ => none
  | .elem _ _ c => forestFind p c

/-- Descendant search for `find_all`. -/
def findAllIn (element : Node)
    (p : String → List (String × List (List Char)) → Bool) : List Node :=
  match element with
  | .text _ => []
  | .elem _ _ c => forestFindAll p c

/-- Descendant text search for `find(text=...)`. -/
def findStringIn (element : Node) (q : List Char → Bool) :
    Option (List Char) :=
  match element with
  | .text _ => none
  | .elem _ _ c => forestFindString q c

/-- Attribute read (`element.get(key)`), yielding the first value item. -/
def getAttr (element : Node) (key : String) : Option (List Char) :=
  match element with
  | .text _ => none
  | .elem _ attrs _ =>
    match attrs.lookup key with
    | some (v :: _) => some v
    | _ => none

/-- Python record value: string, boolean, or list of strings. -/
inductive PyVal where
  | str : List Char → PyVal
  | bool : Bool → PyVal
  | list : List (List Char) → PyVal
deriving DecidableEq

/-- Flat record: a dict from field name to value, insertion-ordered. -/
abbrev PyRecord := List (String × PyVal)

/-- First digit run of a text, as `re.search(r'(\d+)', ·)` captures. -/
def searchDigits : List Char → Option (List Char)
  | [] => none
  | c :: rest =>
    if isPyDigit c then some ((c :: rest).takeWhile isPyDigit)
    else searchDigits rest

/-- Embedding of `EtsyScraper._extract_product_from_listing`, line for
line. `join` stands for `urljoin(base_url, ·)` and `now` for the
`scraped_at` timestamp; the surrounding try/except returns None only when
an operation raises, which the pure embedding has no counterpart for, so
the embedding always produces the record. -/
def extractProduct (join : List Char → List Char) (now : List Char)
    (element : Node) : PyRecord :=
  let titleElem := (findIn element (fun t _ => t == "h3")).orElse
    (fun _ => findIn element (fun t a => t == "a" && hasAttr a "title"))
  let titlePair : List Char × List Char :=
    match titleElem with
    | none => ([], [])
    | some te =>
      let title := cleanText (nodeText te)
      let linkElem := ((findIn te (fun t _ => t == "a")).getD te)
      match getAttr linkElem "href" with
      | some href => if href.isEmpty then (title, []) else (title, join href)
      | none => (title, [])
  let priceElem := (findIn element
      (fun t a => t == "span" && classContains a "currency-value".toList)).orElse
    (fun _ => findIn element (fun t a => t == "p" && classContains a "price".toList))
  let priceInfo : List (String × List Char) :=
    match priceElem with
    | some pe => extractPrice (nodeText pe)
    | none => [("price", []), ("currency", []), ("raw", [])]
  let shopElem := (findIn element
      (fun t a => t == "p" && classContains a "shop".toList)).orElse
    (fun _ => findIn element (fun t a => t == "span" && classContains a "shop".toList))
  let shopName : List Char :=
    match shopElem with
    | some se => cleanText (nodeText se)
    | none => []
  let ratingElem := (findIn element
      (fun t a => t == "span" && classContains a "rating".toList)).orElse
    (fun _ => findIn element
      (fun t a => t == "div" && attrContains a "aria-label" "star".toList))
  let rating : List Char :=
    match ratingElem with
    | some re0 =>
      let ratingText :=
        match getAttr re0 "aria-label" with
        | some v => if v.isEmpty then nodeText re0 else v
        | none => nodeText re0
      (searchRating ratingText).getD []
    | none => []
  let reviewsElem := (findIn element
      (fun t a => t == "span" && classContains a "review".toList)).orElse
    (fun _ => findIn element
      (fun t a => t == "a" && attrContains a "href" "reviews".toList))
  let reviewsCount : List Char :=
    match reviewsElem with
    | some rve => (searchDigits (nodeText rve)).getD []
    | none => []
  let imgElem := findIn element (fun t _ => t == "img")
  let imageUrl : List Char :=
    match imgElem with
    | some im =>
      match getAttr im "src" with
      | some src => if src.isEmpty then [] else src
      | none => []
    | none => []
  let freeShipping : Bool :=
    (findStringIn element
      (fun s => containsSub "free shipping".toList (lowerAscii s))).isSome
  [("title", .str titlePair.1),
   ("price", .str (((priceInfo.lookup "price").getD []))),
   ("currency", .str (((priceInfo.lookup "currency").getD []))),
   ("price_raw", .str (((priceInfo.lookup "raw").getD []))),
   ("shop_name", .str shopName),
   ("rating", .str rating),
   ("reviews_count", .str reviewsCount),
   ("product_url", .str titlePair.2),
   ("image_url", .str imageUrl),
   ("free_shipping", .bool freeShipping),
   ("scraped_at", .str now)]

/-- Round-type field of a funding-round fragment
(`find('span', class_=re.compile(r'round-type|series'))`). -/
def roundTypeOf (e : Node) : List Char :=
  match findIn e (fun t a => t == "span" &&
      (classContains a "round-type".toList || classContains a "series".toList)) with
  | some el => cleanText (nodeText el)
  | none => []

/-- Amount dict of a funding-round fragment
(`find('span', class_=re.compile(r'money|amount'))` then
`_parse_funding_amount`, defaulting to the empty triple). -/
def amountInfoOf (e : Node) : List (String × List Char) :=
  match findIn e (fun t a => t == "span" &&
      (classContains a "money".toList || classContains a "amount".toList)) with
  | some el => parseFundingAmount (nodeText el)
  | none => [("amount", []), ("currency", []), ("raw", [])]

/-- Date field of a funding-round fragment. -/
def fundingDateOf (e : Node) : List Char :=
  match findIn e (fun t a => t == "span" && classContains a "date".toList) with
  | some el => cleanText (nodeText el)
  | none => []

/-- Investor names of a funding-round fragment: the first five
organization links. -/
def investorsOf (e : Node) : List (List Char) :=
  ((findAllIn e (fun t a => t == "a" &&
      attrContains a "href" "/organization/".toList)).take 5).map
    (fun inv => cleanText (nodeText inv))

/-- Embedding of the per-row body of `CrunchbaseScraper.get_funding_rounds`:
the record is kept only under `if round_type or amount_info['amount']`,
otherwise the fragment is discarded (none). -/
def extractFundingRound (now : List Char) (e : Node) : Option PyRecord :=
  if roundTypeOf e ≠ [] ∨ ((amountInfoOf e).lookup "amount").getD [] ≠ [] then
    some [("round_type", .str (roundTypeOf e)),
      ("amount", .str (((amountInfoOf e).lookup "amount").getD [])),
      ("currency", .str (((amountInfoOf e).lookup "currency").getD [])),
      ("amount_raw", .str (((amountInfoOf e).lookup "raw").getD [])),
      ("date", .str (fundingDateOf e)),
      ("investors", .list (investorsOf e)),
      ("scraped_at", .str now)]
  else none

/-- C4 counterexample: a fragment consisting only of a title node whose
text mentions free shipping yields a record whose free-shipping flag is
true, not its empty default — the text search for the shipping marker
also scans the title's text. -/
theorem extractProduct_title_marker :
    (extractProduct (fun h => h) []
      (.elem "div" [] (.cons (.elem "h3" []
        (.cons (.text "free shipping deal".toList) .nil)) .nil))).lookup
      "free_shipping" = some (.bool true) ∧
    (extractProduct (fun h => h) []
      (.elem "div" [] (.cons (.elem "h3" []
        (.cons (.text "free shipping deal".toList) .nil)) .nil))).lookup
      "title" = some (.str "free shipping deal".toList) := by
  constructor <;> decide

/-- C4 as amended: the funding-round extractor discards a fragment exactly
when both the primary identifying field (round type) and the parsed money
amount are empty; and a fragment with only a title node yields a record
with the title set and every other extracted field at its empty default,
provided the title text does not itself contain the free-shipping marker
(in which case only the free-shipping flag differs, as the counterexample
shows). -/
theorem extract_discard_spec :
    (∀ (now : List Char) (e : Node),
      extractFundingRound now e = none ↔
        (roundTypeOf e = [] ∧ ((amountInfoOf e).lookup "amount").getD [] = [])) ∧
    (∀ (join : List Char → List Char) (now t : List Char),
      containsSub "free shipping".toList (lowerAscii t) = false →
      extractProduct join now (.elem "div" [] (.cons (.elem "h3" []
          (.cons (.text t) .nil)) .nil)) =
        [("title", .str (cleanText t)), ("price", .str []),
         ("currency", .str []), ("price_raw", .str []),
         ("shop_name", .str []), ("rating", .str []),
         ("reviews_count", .str []), ("product_url", .str []),
         ("image_url", .str []), ("free_shipping", .bool false),
         ("scraped_at", .str now)]) := by
  constructor
  · intro now e
    rw [extractFundingRound]
    by_cases h : roundTypeOf e ≠ [] ∨ ((amountInfoOf e).lookup "amount").getD [] ≠ []
    · rw [if_pos h]
      constructor
      · intro hc; exact absurd hc (by simp)
      · intro hc
        rcases h with h | h
        · exact absurd hc.1 h
        · exact absurd hc.2 h
    · rw [if_neg h]
      push_neg at h
      simp [h.1, h.2]
  · intro join now t hfs
    have e1 : ∀ p : String → List (String × List (List Char)) → Bool,
        forestFind p (NodeForest.cons (Node.text t) NodeForest.nil) = none :=
      fun _ => rfl
    have e2 : nodeText (Node.elem "h3" []
        (NodeForest.cons (Node.text t) NodeForest.nil)) = t := by
      show t ++ [] = t
      exact List.append_nil t
    have e3 : forestFindString
        (fun s => containsSub "free shipping".toList (lowerAscii s))
        (NodeForest.cons (Node.text t) NodeForest.nil) = none := by
      show (match (if containsSub "free shipping".toList (lowerAscii t) = true
          then some t else none) with
        | some s => some s
        | none => none) = none
      rw [hfs]
      simp
    simp only [extractProduct, findIn, forestFind, nodeFind, findStringIn,
      forestFindString, nodeFindString, nodeText, forestText, getAttr,
      hasAttr, classContains, attrContains, findAllIn, List.lookup, hfs,
      e1, e2, e3, List.append_nil, Option.orElse, Option.getD,
      Option.isSome]
    simp
    refine ⟨?_, rfl⟩
    show cleanText (nodeText (Node.elem "h3" []
      (NodeForest.cons (Node.text t) NodeForest.nil))) = cleanText t
    rw [e2]

/-- Witness for C4 as amended at a concrete title-only fragment. -/
theorem extract_discard_spec_witness :
    containsSub "free shipping".toList (lowerAscii "Necklace".toList) = false ∧
    extractProduct (fun h => h) "2024-01-01 00:00:00".toList
      (.elem "div" [] (.cons (.elem "h3" []
        (.cons (.text "Necklace".toList) .nil)) .nil)) =
      [("title", .str (cleanText "Necklace".toList)), ("price", .str []),
       ("currency", .str []), ("price_raw", .str []),
       ("shop_name", .str []), ("rating", .str []),
       ("reviews_count", .str []), ("product_url", .str []),
       ("image_url", .str []), ("free_shipping", .bool false),
       ("scraped_at", .str "2024-01-01 00:00:00".toList)] :=
  ⟨by decide,
   extract_discard_spec.2 (fun h => h) "2024-01-01 00:00:00".toList
     "Necklace".toList (by decide)⟩

/-- Join with the literal separator of `'; '.join(...)`. -/
def joinSemi (items : List (List Char)) : List Char :=
  List.intercalate "; ".toList items

/-- Etsy `save_to_csv` flattening: the `images`, `tags` and `materials`
keys are rebound to joined strings when list-valued; each record is
shallow-copied first, so only the copy is rebound. -/
def flattenItemEtsy (item : PyRecord) : PyRecord :=
  item.map (fun kv =>
    if kv.1 == "images" || kv.1 == "tags" || kv.1 == "materials" then
      match kv.2 with
      | .list l => (kv.1, .str (joinSemi l))
      | _ => kv
    else kv)

/-- Crunchbase `save_to_csv` flattening: every list-valued key of the
copied record is rebound to the joined string. -/
def flattenItemCrunch (item : PyRecord) : PyRecord :=
  item.map (fun kv =>
    match kv.2 with
    | .list l => (kv.1, .str (joinSemi l))
    | _ => kv)

/-- Result of a delimited-text export call: the silent early return on an
empty list, a written file (header and flattened rows), or a raised
error (`csv.DictWriter` raises ValueError for a row key outside the
header). -/
inductive ExportResult where
  | skippedEmpty : ExportResult
  | wrote : List String → List PyRecord → ExportResult
  | error : String → ExportResult
deriving DecidableEq

/-- Embedding of `EtsyScraper.save_to_csv`. -/
def saveToCsvEtsy (products : List PyRecord) : ExportResult :=
  match products with
  | [] => .skippedEmpty
  | first :: rest =>
    let flattened := (first :: rest).map flattenItemEtsy
    let fieldnames := (flattenItemEtsy first).map Prod.fst
    if flattened.all (fun r => r.all (fun kv => fieldnames.contains kv.1)) then
      .wrote fieldnames flattened
    else .error "ValueError"

/-- Embedding of `CrunchbaseScraper.save_to_csv`. -/
def saveToCsvCrunch (data : List PyRecord) : ExportResult :=
  match data with
  | [] => .skippedEmpty
  | first :: rest =>
    let flattened := (first :: rest).map flattenItemCrunch
    let fieldnames := (flattenItemCrunch first).map Prod.fst
    if flattened.all (fun r => r.all (fun kv => fieldnames.contains kv.1)) then
      .wrote fieldnames flattened
    else .error "ValueError"

/-- Opening brace character, kept out of string literals. -/
def lbrace : Char := '\x7b'

/-- Closing brace character, kept out of string literals. -/
def rbrace : Char := '\x7d'

/-- Lowercase hexadecimal digit. -/
def hexDigit (n : Nat) : Char :=
  "0123456789abcdef".toList.getD n '0'

/-- JSON escaping of one character, `ensure_ascii=False`: only the quote,
backslash and control characters are escaped; other characters pass
through unchanged. -/
def jsonEscapeChar (c : Char) : List Char :=
  if c = '"' then ['\\', '"']
  else if c = '\\' then ['\\', '\\']
  else if c = '\n' then ['\\', 'n']
  else if c = '\t' then ['\\', 't']
  else if c = '\r' then ['\\', 'r']
  else if c = '\x08' then ['\\', 'b']
  else if c = '\x0c' then ['\\', 'f']
  else if c.toNat < 32 then
    ['\\', 'u', '0', '0', hexDigit (c.toNat / 16), hexDigit (c.toNat % 16)]
  else [c]

/-- JSON string literal. -/
def jsonStr (s : List Char) : List Char :=
  '"' :: s.foldr (fun c acc => jsonEscapeChar c ++ acc) ['"']

/-- Indentation of `2 * depth` spaces, as `json.dump(..., indent=2)`
emits. -/
def nspaces (n : Nat) : List Char := List.replicate n ' '

/-- JSON rendering of a record value at a nesting depth. -/
def renderVal (depth : Nat) : PyVal → List Char
  | .str s => jsonStr s
  | .bool b => (if b then "true" else "false").toList
  | .list [] => "[]".toList
  | .list (x :: xs) =>
    "[\n".toList ++
    List.intercalate ",\n".toList
      ((x :: xs).map (fun s => nspaces (2 * (depth + 1)) ++ jsonStr s)) ++
    '\n' :: (nspaces (2 * depth) ++ "]".toList)

/-- JSON rendering of one record object at a nesting depth. -/
def renderRecord (depth : Nat) (r : PyRecord) : List Char :=
  match r with
  | [] => [lbrace, rbrace]
  | _ =>
    lbrace :: '\n' ::
    (List.intercalate ",\n".toList
      (r.map (fun kv => nspaces (2 * (depth + 1)) ++ jsonStr kv.1.toList ++
        ':' :: ' ' :: renderVal (depth + 1) kv.2)) ++
    '\n' :: (nspaces (2 * depth) ++ [rbrace]))

/-- Embedding of `save_to_json`
(`json.dump(records, indent=2, ensure_ascii=False)`): the empty list
renders as the empty-array document. -/
def saveToJson (records : List PyRecord) : List Char :=
  match records with
  | [] => "[]".toList
  | _ =>
    "[\n".toList ++
    List.intercalate ",\n".toList
      (records.map (fun r => nspaces 2 ++ renderRecord 1 r)) ++
    '\n' :: "]".toList

/-- C1 counterexample: an empty record list makes the delimited export
return silently after printing a notice — the early `return` branch —
rather than signal a hard export error. -/
theorem saveToCsv_empty_silent :
    saveToCsvEtsy [] = .skippedEmpty ∧ saveToCsvCrunch [] = .skippedEmpty :=
  ⟨rfl, rfl⟩

/-- C1 as amended: exporting an empty record list to the delimited form
returns silently with nothing written and no error signalled (in both
scrapers), while the structured form on the empty list produces the
valid empty-array document. -/
theorem export_empty_spec :
    saveToCsvEtsy [] = .skippedEmpty ∧
    saveToCsvCrunch [] = .skippedEmpty ∧
    saveToJson [] = "[]".toList :=
  ⟨rfl, rfl, rfl⟩

/-- Heap of dict objects: each record is a cell addressed by its index,
so aliasing and copying are explicit. -/
abbrev Heap := List PyRecord

/-- Dict-key rebinding `d[key] = v` (keys are unique; insertion order is
preserved). -/
def setKey (d : PyRecord) (k : String) (v : PyVal) : PyRecord :=
  d.map (fun kv => if kv.1 == k then (kv.1, v) else kv)

/-- Body of `for key, value in item.items()` in the crunchbase
`save_to_csv`, executed against the copied dict. -/
def flattenAssign (item flat : PyRecord) : PyRecord :=
  item.foldl (fun acc kv =>
    match kv.2 with
    | .list l => setKey acc kv.1 (.str (joinSemi l))
    | _ => acc) flat

/-- One iteration of `for item in data`: `flat_item = item.copy()`
allocates a fresh cell with the same entries, the inner loop mutates
only that fresh cell, and its address is collected. -/
def flattenStepHeap (h : Heap) (addr : Nat) : Heap × Nat :=
  (h ++ [flattenAssign (h.getD addr []) (h.getD addr [])], h.length)

/-- Heap-level flattening loop of `save_to_csv`: returns the final heap
and the addresses of the flattened copies. -/
def flattenLoopHeap : Heap → List Nat → Heap × List Nat
  | h, [] => (h, [])
  | h, a :: as =>
    let step := flattenStepHeap h a
    let rest := flattenLoopHeap step.1 as
    (rest.1, step.2 :: rest.2)

/-- C10: the flattening pass of the delimited export leaves every input
record untouched — the original heap is a cell-for-cell prefix of the
final heap, each input address still holds its original record (and with
it every list-valued field, the code never mutating a list in place),
and every collected output address is a freshly allocated cell. -/
theorem flattenLoopHeap_frame (h : Heap) (addrs : List Nat) :
    ((flattenLoopHeap h addrs).1).take h.length = h ∧
    (∀ a : Nat, a < h.length →
      ((flattenLoopHeap h addrs).1)[a]? = h[a]?) ∧
    (∀ fa ∈ (flattenLoopHeap h addrs).2, h.length ≤ fa) := by
  induction addrs generalizing h with
  | nil =>
    refine ⟨List.take_length h, fun a _ => rfl, ?_⟩
    intro fa hfa
    simp [flattenLoopHeap] at hfa
  | cons a as ih =>
    obtain ⟨ih1, ih2, ih3⟩ := ih (h ++ [flattenAssign (h.getD a []) (h.getD a [])])
    have hlen : h.length ≤ (h ++ [flattenAssign (h.getD a []) (h.getD a [])]).length := by
      simp
    have hres1 : (flattenLoopHeap h (a :: as)).1 =
        (flattenLoopHeap (h ++ [flattenAssign (h.getD a []) (h.getD a [])]) as).1 := rfl
    have hres2 : (flattenLoopHeap h (a :: as)).2 =
        h.length ::
          (flattenLoopHeap (h ++ [flattenAssign (h.getD a []) (h.getD a [])]) as).2 := rfl
    refine ⟨?_, ?_, ?_⟩
    · rw [hres1]
      have : ((flattenLoopHeap (h ++ [flattenAssign (h.getD a []) (h.getD a [])]) as).1).take
          h.length =
          (((flattenLoopHeap (h ++ [flattenAssign (h.getD a []) (h.getD a [])]) as).1).take
            (h ++ [flattenAssign (h.getD a []) (h.getD a [])]).length).take h.length := by
        rw [List.take_take]
        congr 1
        simp
      rw [this, ih1]
      exact List.take_left h _
    · intro b hb
      rw [hres1]
      calc (flattenLoopHeap (h ++ [flattenAssign (h.getD a []) (h.getD a [])]) as).1[b]?
          = (h ++ [flattenAssign (h.getD a []) (h.getD a [])])[b]? :=
            ih2 b (by simp; omega)
        _ = h[b]? := by
            rw [List.getElem?_append_left hb]
    · intro fa hfa
      rw [hres2] at hfa
      rcases List.mem_cons.mp hfa with hfa | hfa
      · omega
      · have := ih3 fa hfa
        simp at this
        omega

/-- Witness for C10 at a one-record heap with a list-valued field. -/
theorem flattenLoopHeap_frame_witness :
    (0:Nat) < ([[("tags", PyVal.list ["a".toList, "b".toList])]] : Heap).length ∧
    ((flattenLoopHeap [[("tags", PyVal.list ["a".toList, "b".toList])]]
        [0]).1)[0]? =
      ([[("tags", PyVal.list ["a".toList, "b".toList])]] : Heap)[0]? ∧
    ((flattenLoopHeap [[("tags", PyVal.list ["a".toList, "b".toList])]]
        [0]).1).take 1 =
      [[("tags", PyVal.list ["a".toList, "b".toList])]] :=
  ⟨by decide,
   (flattenLoopHeap_frame [[("tags", PyVal.list ["a".toList, "b".toList])]]
      [0]).2.1 0 (by decide),
   (flattenLoopHeap_frame [[("tags", PyVal.list ["a".toList, "b".toList])]]
      [0]).1⟩
